import Mathlib

/-!
# Customer Ledger — verification of the ledger core

Shallow embedding of `src/src/app/page.tsx` (the `CustomerLedger` component).
The component state is two lists, `customers` and `transactions`; the three
mutating handlers are `handleCustomerSubmit`, `handleTransactionSubmit` and
`deleteCustomer`.  Monetary values (JS numbers) are modelled as rationals;
form-field strings that the code feeds through `parseFloat(x) || 0` are
modelled as `Option ℚ` (`none` = the string does not parse, i.e. `parseFloat`
returned `NaN`).  Dates are opaque strings supplied as inputs, as are the ids
the code draws from `Date.now().toString()`.
-/

namespace CustomerLedger

/-- `interface Customer` from page.tsx. -/
structure Customer where
  id : String
  name : String
  phone : String
  email : String
  address : String
  openingBalance : ℚ
  notes : String
  balance : ℚ
  lastTransaction : String
  deriving Repr, DecidableEq

/-- The `'debit' | 'credit'` union of `Transaction.type`. -/
inductive TxType where
  | debit
  | credit
  deriving Repr, DecidableEq

/-- `interface Transaction` from page.tsx (`type` field renamed to `txType`). -/
structure Transaction where
  id : String
  customerId : String
  txType : TxType
  amount : ℚ
  date : String
  description : String
  balance : ℚ
  deriving Repr, DecidableEq

/-- The component state: the `customers` and `transactions` `useState` lists. -/
structure LedgerState where
  customers : List Customer
  transactions : List Transaction
  deriving Repr, DecidableEq

/-- The `showNotification(message, type)` call: its two arguments. -/
inductive NotifKind where
  | success
  | error
  deriving Repr, DecidableEq

structure Notification where
  message : String
  kind : NotifKind
  deriving Repr, DecidableEq

/-- The signed contribution of a transaction to a balance: the code computes
`type === 'debit' ? balance + amount : balance - amount`. -/
def signedAmount (t : Transaction) : ℚ :=
  match t.txType with
  | .debit => t.amount
  | .credit => -t.amount

/-- Form input of `handleCustomerSubmit`.  `id` is the `Date.now().toString()`
value, `today` the `new Date().toLocaleDateString()` value, `openingBalance`
the form field after `parseFloat` (`none` when it yields `NaN`, e.g. empty). -/
structure CustomerForm where
  id : String
  name : String
  phone : String
  email : String
  address : String
  openingBalance : Option ℚ
  notes : String
  today : String
  deriving Repr, DecidableEq

/-- `parseFloat(x) || 0`: an unparseable field (NaN) coerces to `0`. -/
def parseFloatOrZero (x : Option ℚ) : ℚ :=
  x.getD 0

/-- The customer object built by `handleCustomerSubmit` (page.tsx lines 60-70). -/
def newCustomerOf (f : CustomerForm) : Customer :=
  { id := f.id
    name := f.name
    phone := f.phone
    email := f.email
    address := f.address
    openingBalance := parseFloatOrZero f.openingBalance
    notes := f.notes
    balance := parseFloatOrZero f.openingBalance
    lastTransaction := f.today }

/-- `handleCustomerSubmit` (page.tsx lines 56-75): unconditionally appends the
new customer and shows a success notification; no validation is performed. -/
def handleCustomerSubmit (s : LedgerState) (f : CustomerForm) :
    LedgerState × Notification :=
  ({ customers := s.customers ++ [newCustomerOf f]
     transactions := s.transactions },
   ⟨"Customer added successfully!", .success⟩)

/-- Form input of `handleTransactionSubmit`.  `txId` is `Date.now().toString()`,
`date` the date field (`none` when empty, in which case the code substitutes
`defaultDate`, the current ISO date), `procDate` the
`new Date().toLocaleDateString()` value written to `lastTransaction`. -/
structure TransactionForm where
  txId : String
  customerId : String
  txType : TxType
  amount : ℚ
  date : Option String
  defaultDate : String
  description : String
  procDate : String
  deriving Repr, DecidableEq

/-- `const newBalance = type === 'debit' ? customer.balance + amount
: customer.balance - amount` (page.tsx lines 90-92). -/
def newBalanceOf (customer : Customer) (f : TransactionForm) : ℚ :=
  match f.txType with
  | .debit => customer.balance + f.amount
  | .credit => customer.balance - f.amount

/-- The `newTransaction` object (page.tsx lines 94-102); `date` falls back to
the current ISO date when the form field is empty (line 84). -/
def newTransactionOf (f : TransactionForm) (customer : Customer) : Transaction :=
  { id := f.txId
    customerId := f.customerId
    txType := f.txType
    amount := f.amount
    date := f.date.getD f.defaultDate
    description := f.description
    balance := newBalanceOf customer f }

/-- The per-customer rewrite in `setCustomers(prev => prev.map(...))`
(page.tsx lines 107-111). -/
def updateCustomer (f : TransactionForm) (nb : ℚ) (c : Customer) : Customer :=
  if c.id == f.customerId then { c with balance := nb, lastTransaction := f.procDate }
  else c

/-- `handleTransactionSubmit` (page.tsx lines 77-115).  Looks up the customer
with `customers.find(c => c.id === customerId)`; on `undefined` it returns with
no state change and no notification.  Otherwise it computes the new balance,
appends the transaction, rewrites every customer whose id matches, and shows a
success notification.  No check on `amount` is performed. -/
def handleTransactionSubmit (s : LedgerState) (f : TransactionForm) :
    LedgerState × Option Notification :=
  match s.customers.find? (fun c => c.id == f.customerId) with
  | none => (s, none)
  | some customer =>
    ({ customers := s.customers.map (updateCustomer f (newBalanceOf customer f))
       transactions := s.transactions ++ [newTransactionOf f customer] },
     some ⟨"Transaction recorded successfully!", .success⟩)

/-- `deleteCustomer` (page.tsx lines 122-126): filters both lists in the same
handler call and shows a success notification unconditionally. -/
def deleteCustomer (s : LedgerState) (customerId : String) :
    LedgerState × Notification :=
  ({ customers := s.customers.filter (fun c => !(c.id == customerId))
     transactions := s.transactions.filter (fun t => !(t.customerId == customerId)) },
   ⟨"Customer deleted successfully!", .success⟩)

/-- One operation on the store, as invocable from the page. -/
inductive Op where
  | create (f : CustomerForm)
  | record (f : TransactionForm)
  | delete (customerId : String)
  deriving Repr

/-- Apply one operation to the state (dropping the notification). -/
def applyOp (s : LedgerState) : Op → LedgerState
  | .create f => (handleCustomerSubmit s f).1
  | .record f => (handleTransactionSubmit s f).1
  | .delete cid => (deleteCustomer s cid).1

/-- Run a sequence of operations left to right. -/
def run (s : LedgerState) (ops : List Op) : LedgerState :=
  ops.foldl applyOp s

/-- The empty initial state (`useState([])` for both lists). -/
def initState : LedgerState :=
  { customers := [], transactions := [] }

/-- An operation generates a fresh id in state `s`: for `create`, the new
customer id is not already used.  The code draws ids from `Date.now()`; the
spec's data model stipulates they are opaque unique ids. -/
def opFresh (s : LedgerState) : Op → Bool
  | .create f => s.customers.all (fun c => !(c.id == f.id))
  | .record _ => true
  | .delete _ => true

/-- Every `create` along the run uses an id fresh at its point of execution. -/
def freshRun (s : LedgerState) : List Op → Bool
  | [] => true
  | op :: ops => opFresh s op && freshRun (applyOp s op) ops

/-- A customer's transaction history, in insertion order. -/
def customerTxs (txs : List Transaction) (cid : String) : List Transaction :=
  txs.filter (fun t => t.customerId == cid)

/-- Sum of signed amounts of a transaction list. -/
def signedSum (txs : List Transaction) : ℚ :=
  (txs.map signedAmount).sum

/-- C1's invariant: every stored balance equals opening balance plus the
signed sum of that customer's history. -/
def balanceInv (s : LedgerState) : Prop :=
  ∀ c ∈ s.customers,
    c.balance = c.openingBalance + signedSum (customerTxs s.transactions c.id)

/-- C2's invariant, pointwise along a history: each recorded running balance
is the previous one plus the signed amount, starting from `prev`. -/
def chainOk : ℚ → List Transaction → Prop
  | _, [] => True
  | prev, t :: ts => t.balance = prev + signedAmount t ∧ chainOk t.balance ts

/-- C2's invariant over the whole state. -/
def chainInv (s : LedgerState) : Prop :=
  ∀ c ∈ s.customers, chainOk c.openingBalance (customerTxs s.transactions c.id)

/-- Customer ids are pairwise distinct. -/
def idsNodup (s : LedgerState) : Prop :=
  (s.customers.map Customer.id).Nodup

/-- Referential integrity: every transaction references a present customer. -/
def refInt (s : LedgerState) : Prop :=
  ∀ t ∈ s.transactions, ∃ c ∈ s.customers, c.id = t.customerId

/-- Modelled from the spec: the Balance Engine's
`recomputeBalance(openingBalance, orderedTransactions)` has no counterpart in
the source (the page keeps balances incrementally); following the spec's
words, it returns the final balance and, for each transaction in order, its
`balanceAfter`, by folding signed amounts left-to-right starting from the
opening balance. -/
def recomputeBalance (openingBalance : ℚ) (orderedTransactions : List Transaction) :
    ℚ × List ℚ :=
  match orderedTransactions with
  | [] => (openingBalance, [])
  | t :: ts =>
    let b := openingBalance + signedAmount t
    let rest := recomputeBalance b ts
    (rest.1, b :: rest.2)

/-! ## Basic lemmas about the embedded operations -/

theorem updateCustomer_id (f : TransactionForm) (nb : ℚ) (c : Customer) :
    (updateCustomer f nb c).id = c.id := by
  unfold updateCustomer
  split <;> rfl

theorem updateCustomer_of_ne (f : TransactionForm) (nb : ℚ) (c : Customer)
    (h : c.id ≠ f.customerId) : updateCustomer f nb c = c := by
  simp [updateCustomer, h]

theorem newTransactionOf_customerId (f : TransactionForm) (c : Customer) :
    (newTransactionOf f c).customerId = f.customerId := rfl

theorem newBalanceOf_eq_add_signed (c : Customer) (f : TransactionForm) :
    newBalanceOf c f = c.balance + signedAmount (newTransactionOf f c) := by
  cases h : f.txType <;>
    simp [newBalanceOf, newTransactionOf, signedAmount, h, sub_eq_add_neg]

theorem customerTxs_append (a b : List Transaction) (cid : String) :
    customerTxs (a ++ b) cid = customerTxs a cid ++ customerTxs b cid := by
  simp [customerTxs, List.filter_append]

theorem customerTxs_singleton_self (t : Transaction) (cid : String)
    (h : t.customerId = cid) : customerTxs [t] cid = [t] := by
  simp [customerTxs, h]

theorem customerTxs_singleton_ne (t : Transaction) (cid : String)
    (h : t.customerId ≠ cid) : customerTxs [t] cid = [] := by
  simp [customerTxs, h]

theorem signedSum_nil : signedSum [] = 0 := rfl

theorem signedSum_append (a b : List Transaction) :
    signedSum (a ++ b) = signedSum a + signedSum b := by
  simp [signedSum]

theorem signedSum_singleton (t : Transaction) :
    signedSum [t] = signedAmount t := by
  simp [signedSum]

theorem chainOk_append_singleton (prev : ℚ) (l : List Transaction)
    (t : Transaction) (hl : chainOk prev l)
    (ht : t.balance = prev + signedSum l + signedAmount t) :
    chainOk prev (l ++ [t]) := by
  induction l generalizing prev with
  | nil =>
    simp only [List.nil_append, chainOk]
    refine ⟨?_, trivial⟩
    simpa [signedSum_nil] using ht
  | cons x xs ih =>
    obtain ⟨hx, hxs⟩ := hl
    refine ⟨hx, ih x.balance hxs ?_⟩
    have hsum : signedSum (x :: xs) = signedAmount x + signedSum xs := by
      simp [signedSum]
    rw [ht, hsum, hx]
    ring

/-- If no transaction of `txs` belongs to `cid`, the history is empty. -/
theorem customerTxs_eq_nil (txs : List Transaction) (cid : String)
    (h : ∀ t ∈ txs, t.customerId ≠ cid) : customerTxs txs cid = [] := by
  induction txs with
  | nil => rfl
  | cons x xs ih =>
    have hx := h x (by simp)
    simp only [customerTxs, List.filter_cons] at *
    simp [hx, ih fun t ht => h t (by simp [ht])]

/-- Deleting the transactions of another customer leaves a history intact. -/
theorem customerTxs_filter_ne (txs : List Transaction) (cid del : String)
    (h : cid ≠ del) :
    customerTxs (txs.filter (fun t => !(t.customerId == del))) cid =
      customerTxs txs cid := by
  induction txs with
  | nil => rfl
  | cons x xs ih =>
    by_cases hd : x.customerId = del
    · have hx : ¬x.customerId = cid := by
        rw [hd]; intro hc; exact h hc.symm
      simp only [customerTxs] at ih ⊢
      simp [List.filter_cons, hd, hx, ih, Ne.symm h]
    · by_cases hx : x.customerId = cid
      · simp only [customerTxs] at ih ⊢
        simp [List.filter_cons, hd, hx, ih, h, Ne.symm h]
      · simp only [customerTxs] at ih ⊢
        simp [List.filter_cons, hd, hx, ih]

/-! ## Invariant preservation -/

/-- The combined reachability invariant of the store. -/
def Inv (s : LedgerState) : Prop :=
  idsNodup s ∧ refInt s ∧ balanceInv s ∧ chainInv s

theorem inv_initState : Inv initState := by
  refine ⟨?_, ?_, ?_, ?_⟩ <;>
    simp [idsNodup, refInt, balanceInv, chainInv, initState]

theorem inv_create (s : LedgerState) (f : CustomerForm) (hInv : Inv s)
    (hFresh : s.customers.all (fun c => !(c.id == f.id)) = true) :
    Inv (handleCustomerSubmit s f).1 := by
  obtain ⟨hNodup, hRef, hBal, hChain⟩ := hInv
  have hFresh' : ∀ c ∈ s.customers, c.id ≠ f.id := by
    intro c hc
    have := List.all_eq_true.mp hFresh c hc
    simpa using this
  have hNoTx : ∀ t ∈ s.transactions, t.customerId ≠ f.id := by
    intro t ht heq
    obtain ⟨c, hc, hcid⟩ := hRef t ht
    exact hFresh' c hc (hcid.trans heq)
  refine ⟨?_, ?_, ?_, ?_⟩
  · have hmap : ((s.customers ++ [newCustomerOf f]).map Customer.id) =
        s.customers.map Customer.id ++ [f.id] := by
      simp [newCustomerOf]
    show ((handleCustomerSubmit s f).1.customers.map Customer.id).Nodup
    simp only [handleCustomerSubmit]
    rw [hmap, List.nodup_append]
    refine ⟨hNodup, List.nodup_singleton _, ?_⟩
    intro a ha hb
    simp only [List.mem_singleton] at hb
    obtain ⟨c, hc, hcid⟩ := List.mem_map.mp ha
    exact hFresh' c hc (hcid.trans hb)
  · intro t ht
    simp only [handleCustomerSubmit] at ht ⊢
    obtain ⟨c, hc, hcid⟩ := hRef t ht
    exact ⟨c, List.mem_append_left _ hc, hcid⟩
  · intro c hc
    simp only [handleCustomerSubmit] at hc ⊢
    rcases List.mem_append.mp hc with hl | hr
    · exact hBal c hl
    · simp only [List.mem_singleton] at hr
      subst hr
      have hnil : customerTxs s.transactions f.id = [] :=
        customerTxs_eq_nil _ _ hNoTx
      simp [newCustomerOf, hnil, signedSum_nil]
  · intro c hc
    simp only [handleCustomerSubmit] at hc ⊢
    rcases List.mem_append.mp hc with hl | hr
    · exact hChain c hl
    · simp only [List.mem_singleton] at hr
      subst hr
      have hnil : customerTxs s.transactions f.id = [] :=
        customerTxs_eq_nil _ _ hNoTx
      simp [newCustomerOf, hnil, chainOk]

theorem inv_record (s : LedgerState) (f : TransactionForm) (hInv : Inv s) :
    Inv (handleTransactionSubmit s f).1 := by
  obtain ⟨hNodup, hRef, hBal, hChain⟩ := hInv
  cases hfind : s.customers.find? (fun c => c.id == f.customerId) with
  | none =>
    simp only [handleTransactionSubmit, hfind]
    exact ⟨hNodup, hRef, hBal, hChain⟩
  | some a =>
    have haMem : a ∈ s.customers := List.mem_of_find?_eq_some hfind
    have haId : a.id = f.customerId := by
      have := List.find?_some hfind
      simpa using this
    have hIdPres : ∀ c ∈ s.customers,
        (updateCustomer f (newBalanceOf a f) c).id = c.id := fun c _ =>
      updateCustomer_id f _ c
    have hntCid : (newTransactionOf f a).customerId = f.customerId := rfl
    refine ⟨?_, ?_, ?_, ?_⟩
    · show ((handleTransactionSubmit s f).1.customers.map Customer.id).Nodup
      simp only [handleTransactionSubmit, hfind]
      rw [List.map_map]
      have : s.customers.map (Customer.id ∘ updateCustomer f (newBalanceOf a f)) =
          s.customers.map Customer.id :=
        List.map_congr_left fun c hc => hIdPres c hc
      rw [this]
      exact hNodup
    · intro t ht
      simp only [handleTransactionSubmit, hfind] at ht ⊢
      rcases List.mem_append.mp ht with hl | hr
      · obtain ⟨c, hc, hcid⟩ := hRef t hl
        exact ⟨updateCustomer f (newBalanceOf a f) c,
          List.mem_map_of_mem _ hc, by rw [updateCustomer_id]; exact hcid⟩
      · simp only [List.mem_singleton] at hr
        subst hr
        exact ⟨updateCustomer f (newBalanceOf a f) a,
          List.mem_map_of_mem _ haMem, by rw [updateCustomer_id, haId, hntCid]⟩
    · intro c' hc'
      simp only [handleTransactionSubmit, hfind] at hc' ⊢
      obtain ⟨c, hc, hupd⟩ := List.mem_map.mp hc'
      by_cases hcid : c.id = f.customerId
      · have hca : c = a :=
          List.inj_on_of_nodup_map hNodup hc haMem (hcid.trans haId.symm)
        subst hca
        have hupd' : c' = { c with balance := newBalanceOf c f, lastTransaction := f.procDate } := by
          rw [← hupd]; simp [updateCustomer, hcid]
        subst hupd'
        have hhist : customerTxs (s.transactions ++ [newTransactionOf f c]) c.id =
            customerTxs s.transactions c.id ++ [newTransactionOf f c] := by
          rw [customerTxs_append,
            customerTxs_singleton_self _ _ (by rw [hntCid, hcid])]
        simp only [hhist, signedSum_append, signedSum_singleton]
        have hb := hBal c hc
        rw [newBalanceOf_eq_add_signed, hb]
        ring
      · have hupd' : c' = c := by rw [← hupd, updateCustomer_of_ne _ _ _ hcid]
        rw [hupd']
        have hhist : customerTxs (s.transactions ++ [newTransactionOf f a]) c.id =
            customerTxs s.transactions c.id := by
          rw [customerTxs_append,
            customerTxs_singleton_ne _ _ (by rw [hntCid]; exact fun h => hcid h.symm),
            List.append_nil]
        rw [hhist]
        exact hBal c hc
    · intro c' hc'
      simp only [handleTransactionSubmit, hfind] at hc' ⊢
      obtain ⟨c, hc, hupd⟩ := List.mem_map.mp hc'
      by_cases hcid : c.id = f.customerId
      · have hca : c = a :=
          List.inj_on_of_nodup_map hNodup hc haMem (hcid.trans haId.symm)
        subst hca
        have hupd' : c' = { c with balance := newBalanceOf c f, lastTransaction := f.procDate } := by
          rw [← hupd]; simp [updateCustomer, hcid]
        subst hupd'
        have hhist : customerTxs (s.transactions ++ [newTransactionOf f c]) c.id =
            customerTxs s.transactions c.id ++ [newTransactionOf f c] := by
          rw [customerTxs_append,
            customerTxs_singleton_self _ _ (by rw [hntCid, hcid])]
        simp only [hhist]
        refine chainOk_append_singleton _ _ _ (hChain c hc) ?_
        have hb := hBal c hc
        show newBalanceOf c f = _
        rw [newBalanceOf_eq_add_signed, hb]
      · have hupd' : c' = c := by rw [← hupd, updateCustomer_of_ne _ _ _ hcid]
        rw [hupd']
        have hhist : customerTxs (s.transactions ++ [newTransactionOf f a]) c.id =
            customerTxs s.transactions c.id := by
          rw [customerTxs_append,
            customerTxs_singleton_ne _ _ (by rw [hntCid]; exact fun h => hcid h.symm),
            List.append_nil]
        rw [hhist]
        exact hChain c hc

theorem inv_delete (s : LedgerState) (cid : String) (hInv : Inv s) :
    Inv (deleteCustomer s cid).1 := by
  obtain ⟨hNodup, hRef, hBal, hChain⟩ := hInv
  refine ⟨?_, ?_, ?_, ?_⟩
  · show ((deleteCustomer s cid).1.customers.map Customer.id).Nodup
    simp only [deleteCustomer]
    exact hNodup.sublist ((List.filter_sublist _).map Customer.id)
  · intro t ht
    simp only [deleteCustomer] at ht ⊢
    have htmem := (List.mem_filter.mp ht).1
    have htkeep := (List.mem_filter.mp ht).2
    obtain ⟨c, hc, hcid⟩ := hRef t htmem
    refine ⟨c, List.mem_filter.mpr ⟨hc, ?_⟩, hcid⟩
    rw [hcid]
    exact htkeep
  · intro c hc
    simp only [deleteCustomer] at hc ⊢
    have hcmem := (List.mem_filter.mp hc).1
    have hckeep := (List.mem_filter.mp hc).2
    have hne : c.id ≠ cid := by simpa using hckeep
    rw [customerTxs_filter_ne _ _ _ hne]
    exact hBal c hcmem
  · intro c hc
    simp only [deleteCustomer] at hc ⊢
    have hcmem := (List.mem_filter.mp hc).1
    have hckeep := (List.mem_filter.mp hc).2
    have hne : c.id ≠ cid := by simpa using hckeep
    rw [customerTxs_filter_ne _ _ _ hne]
    exact hChain c hcmem

theorem inv_applyOp (s : LedgerState) (op : Op) (hInv : Inv s)
    (hFresh : opFresh s op = true) : Inv (applyOp s op) := by
  cases op with
  | create f => exact inv_create s f hInv (by simpa [opFresh] using hFresh)
  | record f => exact inv_record s f hInv
  | delete cid => exact inv_delete s cid hInv

theorem inv_run (s : LedgerState) (ops : List Op) (hInv : Inv s)
    (hFresh : freshRun s ops = true) : Inv (run s ops) := by
  induction ops generalizing s with
  | nil => simpa [run] using hInv
  | cons op ops ih =>
    rw [freshRun, Bool.and_eq_true] at hFresh
    have hstep : run s (op :: ops) = run (applyOp s op) ops := by
      simp [run]
    rw [hstep]
    exact ih _ (inv_applyOp s op hInv hFresh.1) hFresh.2

/-! ## Balance Engine lemmas -/

theorem recomputeBalance_fst (b : ℚ) (txs : List Transaction) :
    (recomputeBalance b txs).1 = b + signedSum txs := by
  induction txs generalizing b with
  | nil => simp [recomputeBalance, signedSum_nil]
  | cons t ts ih =>
    simp only [recomputeBalance, ih]
    have : signedSum (t :: ts) = signedAmount t + signedSum ts := by
      simp [signedSum]
    rw [this]
    ring

theorem recomputeBalance_snd_of_chainOk (b : ℚ) (txs : List Transaction)
    (h : chainOk b txs) :
    (recomputeBalance b txs).2 = txs.map Transaction.balance := by
  induction txs generalizing b with
  | nil => rfl
  | cons t ts ih =>
    obtain ⟨ht, hts⟩ := h
    simp only [recomputeBalance, List.map_cons, ← ht]
    rw [ih t.balance hts]

/-! ## Concrete fixtures for witnesses and counterexamples -/

/-- A minimal concrete customer record. -/
def sampleCustomer (id : String) (ob : ℚ) : Customer :=
  { id := id, name := "N", phone := "", email := "", address := "",
    openingBalance := ob, notes := "", balance := ob, lastTransaction := "d0" }

/-- A minimal concrete customer-creation form. -/
def sampleCustomerForm (id : String) (ob : Option ℚ) : CustomerForm :=
  { id := id, name := "N", phone := "", email := "", address := "",
    openingBalance := ob, notes := "", today := "d0" }

/-- A minimal concrete transaction form. -/
def sampleTxForm (txId cid : String) (k : TxType) (amt : ℚ) : TransactionForm :=
  { txId := txId, customerId := cid, txType := k, amount := amt,
    date := none, defaultDate := "d1", description := "", procDate := "d1" }

/-! ## Claims -/

/-- C1: after any sequence of createCustomer, recordTransaction and
deleteCustomer operations from the empty store in which every created
customer id is fresh (the data model's "opaque unique id" stipulation; the
code draws ids from `Date.now()`), every stored customer balance equals its
opening balance plus the sum of signed amounts (+amount for debit, -amount
for credit) of all transactions whose customerId refers to that customer, in
insertion order. -/
theorem C1_balance_equals_opening_plus_signed_sum (ops : List Op)
    (hFresh : freshRun initState ops = true) :
    balanceInv (run initState ops) :=
  (inv_run initState ops inv_initState hFresh).2.2.1

def opsC1 : List Op :=
  [Op.create (sampleCustomerForm "1" (some 100)),
   Op.create (sampleCustomerForm "2" (some 0)),
   Op.record (sampleTxForm "t1" "1" TxType.debit 50),
   Op.record (sampleTxForm "t2" "1" TxType.credit 30),
   Op.delete "2"]

theorem C1_witness :
    freshRun initState opsC1 = true ∧ balanceInv (run initState opsC1) :=
  ⟨by decide, C1_balance_equals_opening_plus_signed_sum opsC1 (by decide)⟩

/-- C2: in every state reachable from the empty store (fresh created ids),
every customer's history satisfies, position by position, that the recorded
running balance of a transaction equals the previous transaction's running
balance plus its signed amount, the first transaction starting from the
customer's openingBalance. -/
theorem C2_running_balance_chain (ops : List Op)
    (hFresh : freshRun initState ops = true) :
    chainInv (run initState ops) :=
  (inv_run initState ops inv_initState hFresh).2.2.2

def opsC2 : List Op :=
  [Op.create (sampleCustomerForm "7" (some 10)),
   Op.record (sampleTxForm "t1" "7" TxType.debit 5),
   Op.record (sampleTxForm "t2" "7" TxType.credit 2)]

theorem C2_witness :
    freshRun initState opsC2 = true ∧ chainInv (run initState opsC2) :=
  ⟨by decide, C2_running_balance_chain opsC2 (by decide)⟩

/-- C7: in every reachable state (fresh created ids), the incrementally
maintained stored balance and the per-transaction recorded running balances
coincide with the spec's pure `recomputeBalance` reference: the final balance
and `balanceAfter` list obtained by folding signed amounts left-to-right over
the customer's full ordered history starting from its openingBalance. -/
theorem C7_incremental_refines_recompute (ops : List Op)
    (hFresh : freshRun initState ops = true) :
    ∀ c ∈ (run initState ops).customers,
      c.balance =
        (recomputeBalance c.openingBalance
          (customerTxs (run initState ops).transactions c.id)).1 ∧
      (customerTxs (run initState ops).transactions c.id).map Transaction.balance =
        (recomputeBalance c.openingBalance
          (customerTxs (run initState ops).transactions c.id)).2 := by
  intro c hc
  obtain ⟨-, -, hBal, hChain⟩ := inv_run initState ops inv_initState hFresh
  refine ⟨?_, ?_⟩
  · rw [recomputeBalance_fst]
    exact hBal c hc
  · rw [recomputeBalance_snd_of_chainOk _ _ (hChain c hc)]

def opsC7 : List Op :=
  [Op.create (sampleCustomerForm "9" (some 3)),
   Op.record (sampleTxForm "t1" "9" TxType.credit 4),
   Op.record (sampleTxForm "t2" "9" TxType.debit 1)]

theorem C7_witness :
    freshRun initState opsC7 = true ∧
    ∀ c ∈ (run initState opsC7).customers,
      c.balance =
        (recomputeBalance c.openingBalance
          (customerTxs (run initState opsC7).transactions c.id)).1 ∧
      (customerTxs (run initState opsC7).transactions c.id).map Transaction.balance =
        (recomputeBalance c.openingBalance
          (customerTxs (run initState opsC7).transactions c.id)).2 :=
  ⟨by decide, C7_incremental_refines_recompute opsC7 (by decide)⟩

/-- C5: `deleteCustomer` is a single step of the operational semantics
(`applyOp`), and after it the customer with the given id is absent, no
transaction with that customerId remains, and both collections are exactly
the original ones with the matching entries filtered out together — no state
with only one of the two removals exists, since the one step produces both
filtered collections at once. -/
theorem C5_delete_atomic_cascade (s : LedgerState) (cid : String) :
    applyOp s (Op.delete cid) = (deleteCustomer s cid).1 ∧
    (deleteCustomer s cid).1.customers.all (fun c => !(c.id == cid)) = true ∧
    (deleteCustomer s cid).1.transactions.all (fun t => !(t.customerId == cid)) = true ∧
    (deleteCustomer s cid).1.customers = s.customers.filter (fun c => !(c.id == cid)) ∧
    (deleteCustomer s cid).1.transactions
      = s.transactions.filter (fun t => !(t.customerId == cid)) := by
  refine ⟨rfl, ?_, ?_, rfl, rfl⟩
  · rw [List.all_eq_true]
    intro c hc
    exact (List.mem_filter.mp hc).2
  · rw [List.all_eq_true]
    intro t ht
    exact (List.mem_filter.mp ht).2

/-- C9: deleting a customerId that resolves to no customer is a silent no-op:
in any state satisfying referential integrity, both collections are exactly
unchanged, the signalled notification is not an error, and repeating the
deletion changes nothing (idempotence). -/
theorem C9_delete_missing_noop (s : LedgerState) (cid : String)
    (hRef : refInt s)
    (hAbs : s.customers.all (fun c => !(c.id == cid)) = true) :
    (deleteCustomer s cid).1 = s ∧
    (deleteCustomer s cid).2.kind = NotifKind.success ∧
    deleteCustomer (deleteCustomer s cid).1 cid = deleteCustomer s cid := by
  have hAbs' : ∀ c ∈ s.customers, c.id ≠ cid := by
    intro c hc
    have := List.all_eq_true.mp hAbs c hc
    simpa using this
  have hcs : s.customers.filter (fun c => !(c.id == cid)) = s.customers := by
    rw [List.filter_eq_self]
    intro c hc
    simpa using hAbs' c hc
  have hts : s.transactions.filter (fun t => !(t.customerId == cid)) = s.transactions := by
    rw [List.filter_eq_self]
    intro t ht
    obtain ⟨c, hc, hcid⟩ := hRef t ht
    simp [← hcid, hAbs' c hc]
  have hstate : (deleteCustomer s cid).1 = s := by
    cases s with
    | mk cs ts =>
      simp only [deleteCustomer] at hcs hts ⊢
      rw [hcs, hts]
  exact ⟨hstate, rfl, by rw [hstate]⟩

def sC9 : LedgerState :=
  { customers := [sampleCustomer "1" 5],
    transactions := [newTransactionOf (sampleTxForm "t1" "1" TxType.debit 5)
      (sampleCustomer "1" 5)] }

theorem C9_witness :
    refInt sC9 ∧ sC9.customers.all (fun c => !(c.id == "2")) = true ∧
    ((deleteCustomer sC9 "2").1 = sC9 ∧
     (deleteCustomer sC9 "2").2.kind = NotifKind.success ∧
     deleteCustomer (deleteCustomer sC9 "2").1 "2" = deleteCustomer sC9 "2") :=
  ⟨by unfold refInt; decide, by decide,
   C9_delete_missing_noop sC9 "2" (by unfold refInt; decide) (by decide)⟩

/-- Auxiliary frame fact: rewriting the customers whose id matches the
transaction's customer leaves the entries of any other id untouched. -/
theorem filter_map_updateCustomer (l : List Customer) (f : TransactionForm)
    (nb : ℚ) (bid : String) (hne : bid ≠ f.customerId) :
    (l.map (updateCustomer f nb)).filter (fun c => c.id == bid)
      = l.filter (fun c => c.id == bid) := by
  induction l with
  | nil => rfl
  | cons x xs ih =>
    by_cases hx : x.id = f.customerId
    · have hxb : ¬x.id = bid := by
        rw [hx]; intro h; exact hne h.symm
      have hub : ¬(updateCustomer f nb x).id = bid := by
        rw [updateCustomer_id]; exact hxb
      simp [List.filter_cons, hxb, hub, ih]
    · rw [List.map_cons, updateCustomer_of_ne f nb x hx]
      by_cases hxb : x.id = bid
      · simp [List.filter_cons, hxb, ih]
      · simp [List.filter_cons, hxb, ih]

/-- C6: recording a transaction for one customer does not disturb another:
if `b` is a customer whose id differs from the form's customerId, then after
`handleTransactionSubmit` the customer entries with b's id (balance and
lastTransaction included) are exactly as before, b itself is still present,
and b's transaction history is unchanged. -/
theorem C6_no_cross_customer_leakage (s : LedgerState) (f : TransactionForm)
    (b : Customer) (hb : b ∈ s.customers) (hne : b.id ≠ f.customerId) :
    b ∈ (handleTransactionSubmit s f).1.customers ∧
    (handleTransactionSubmit s f).1.customers.filter (fun c => c.id == b.id)
      = s.customers.filter (fun c => c.id == b.id) ∧
    customerTxs (handleTransactionSubmit s f).1.transactions b.id
      = customerTxs s.transactions b.id := by
  cases hfind : s.customers.find? (fun c => c.id == f.customerId) with
  | none =>
    simp only [handleTransactionSubmit, hfind]
    exact ⟨hb, trivial, trivial⟩
  | some a =>
    simp only [handleTransactionSubmit, hfind]
    refine ⟨?_, ?_, ?_⟩
    · exact List.mem_map.mpr ⟨b, hb, updateCustomer_of_ne f _ b hne⟩
    · exact filter_map_updateCustomer s.customers f _ b.id hne
    · have hnt : (newTransactionOf f a).customerId ≠ b.id := by
        rw [newTransactionOf_customerId]
        intro h
        exact hne h.symm
      rw [customerTxs_append, customerTxs_singleton_ne _ _ hnt, List.append_nil]

def sC6 : LedgerState :=
  { customers := [sampleCustomer "A" 0, sampleCustomer "B" 0],
    transactions := [] }

def fC6 : TransactionForm := sampleTxForm "t1" "A" TxType.debit 20

theorem C6_witness :
    sampleCustomer "B" 0 ∈ sC6.customers ∧
    (sampleCustomer "B" 0).id ≠ fC6.customerId ∧
    (sampleCustomer "B" 0 ∈ (handleTransactionSubmit sC6 fC6).1.customers ∧
     (handleTransactionSubmit sC6 fC6).1.customers.filter (fun c => c.id == "B")
       = sC6.customers.filter (fun c => c.id == "B") ∧
     customerTxs (handleTransactionSubmit sC6 fC6).1.transactions "B"
       = customerTxs sC6.transactions "B") ∧
    customerTxs (handleTransactionSubmit sC6 fC6).1.transactions "B" = [] ∧
    ((handleTransactionSubmit sC6 fC6).1.customers.filter
        (fun c => c.id == "B")).all (fun c => c.balance == 0) = true :=
  ⟨by decide, by decide,
   C6_no_cross_customer_leakage sC6 fC6 (sampleCustomer "B" 0)
     (by decide) (by decide),
   by decide, by decide⟩

/-- Fixture for C3: one customer, a zero-amount transaction form. -/
def sC3 : LedgerState :=
  { customers := [sampleCustomer "1" 5], transactions := [] }

def fC3 : TransactionForm := sampleTxForm "t1" "1" TxType.debit 0

/-- Fixture for C4: one customer, a form naming an absent customerId. -/
def sC4 : LedgerState :=
  { customers := [sampleCustomer "1" 5], transactions := [] }

def fC4 : TransactionForm := sampleTxForm "t1" "2" TxType.debit 10

/-- Fixture for C8: a creation form with an empty name. -/
def fC8 : CustomerForm :=
  { id := "8", name := "", phone := "", email := "", address := "",
    openingBalance := some 7, notes := "", today := "d0" }

/-- C3 counterexample: with one customer present and a transaction form whose
amount is 0, `handleTransactionSubmit` changes the state (it appends the
transaction and rewrites the customer's lastTransaction) and signals success,
so the claim "rejected with ValidationError, no state change" is false. -/
theorem C3_counterexample :
    fC3.amount ≤ 0 ∧
    (handleTransactionSubmit sC3 fC3).1.transactions ≠ sC3.transactions ∧
    (handleTransactionSubmit sC3 fC3).2
      = some ⟨"Transaction recorded successfully!", NotifKind.success⟩ := by
  decide

/-- C3 amended: a recordTransaction call whose amount is zero or negative is
not rejected: whenever the customerId resolves, the transaction is appended
with its signed amount applied to the running balance, and a success
notification (never a ValidationError) is shown. -/
theorem C3_amended_nonpositive_amount_accepted (s : LedgerState)
    (f : TransactionForm) (a : Customer)
    (hamt : f.amount ≤ 0)
    (hfind : s.customers.find? (fun c => c.id == f.customerId) = some a) :
    (handleTransactionSubmit s f).1.transactions
      = s.transactions ++ [newTransactionOf f a] ∧
    (newTransactionOf f a).balance
      = a.balance + signedAmount (newTransactionOf f a) ∧
    (handleTransactionSubmit s f).2
      = some ⟨"Transaction recorded successfully!", NotifKind.success⟩ := by
  refine ⟨?_, ?_, ?_⟩
  · simp [handleTransactionSubmit, hfind]
  · exact newBalanceOf_eq_add_signed a f
  · simp [handleTransactionSubmit, hfind]

theorem C3_amended_witness :
    fC3.amount ≤ 0 ∧
    sC3.customers.find? (fun c => c.id == fC3.customerId)
      = some (sampleCustomer "1" 5) ∧
    ((handleTransactionSubmit sC3 fC3).1.transactions
       = sC3.transactions ++ [newTransactionOf fC3 (sampleCustomer "1" 5)] ∧
     (newTransactionOf fC3 (sampleCustomer "1" 5)).balance
       = (sampleCustomer "1" 5).balance
           + signedAmount (newTransactionOf fC3 (sampleCustomer "1" 5)) ∧
     (handleTransactionSubmit sC3 fC3).2
       = some ⟨"Transaction recorded successfully!", NotifKind.success⟩) :=
  ⟨by decide, by decide,
   C3_amended_nonpositive_amount_accepted sC3 fC3 (sampleCustomer "1" 5)
     (by decide) (by decide)⟩

/-- C4 counterexample: recording against an absent customerId leaves the
state unchanged as claimed, but nothing is reported at all — the handler
returns silently, so "reports a NotFoundError" is false. -/
theorem C4_counterexample :
    (handleTransactionSubmit sC4 fC4).1 = sC4 ∧
    ¬∃ n : Notification, (handleTransactionSubmit sC4 fC4).2 = some n := by
  have h2 : (handleTransactionSubmit sC4 fC4).2 = none := by decide
  refine ⟨by decide, ?_⟩
  rintro ⟨n, hn⟩
  rw [h2] at hn
  exact Option.noConfusion hn

/-- C4 amended: when the customerId resolves to no existing customer,
`handleTransactionSubmit` leaves the whole state exactly unchanged and
produces no notification whatsoever (a silent early return, not a
NotFoundError report). -/
theorem C4_amended_unknown_customer_silent_noop (s : LedgerState)
    (f : TransactionForm)
    (habs : s.customers.all (fun c => !(c.id == f.customerId)) = true) :
    handleTransactionSubmit s f = (s, none) := by
  have hfind : s.customers.find? (fun c => c.id == f.customerId) = none := by
    rw [List.find?_eq_none]
    intro c hc
    have := List.all_eq_true.mp habs c hc
    simpa using this
  simp [handleTransactionSubmit, hfind]

theorem C4_amended_witness :
    sC4.customers.all (fun c => !(c.id == fC4.customerId)) = true ∧
    handleTransactionSubmit sC4 fC4 = (sC4, none) :=
  ⟨by decide, C4_amended_unknown_customer_silent_noop sC4 fC4 (by decide)⟩

/-- C8 counterexample: a creation form with an empty name is not rejected —
the customer is appended anyway and the notification is a success, so "fails
with a ValidationError and no customer is added" is false.  (The only guard
against empty names in the repository is the `required` attribute on the HTML
input, i.e. browser-side, outside `handleCustomerSubmit`.) -/
theorem C8_counterexample :
    fC8.name = "" ∧
    ¬((handleCustomerSubmit initState fC8).1 = initState ∧
      (handleCustomerSubmit initState fC8).2.kind = NotifKind.error) := by
  decide

/-- C8 amended: `handleCustomerSubmit` never rejects: for every name, empty
included, exactly the new customer is appended, its balance equals its
openingBalance, no transaction is created, and a success notification is
shown. -/
theorem C8_amended_create_never_rejects (s : LedgerState) (f : CustomerForm) :
    (handleCustomerSubmit s f).1.customers = s.customers ++ [newCustomerOf f] ∧
    (handleCustomerSubmit s f).1.transactions = s.transactions ∧
    (newCustomerOf f).balance = (newCustomerOf f).openingBalance ∧
    (handleCustomerSubmit s f).2.kind = NotifKind.success :=
  ⟨rfl, rfl, rfl, rfl⟩

/-- C10: when the openingBalance field does not parse as a number
(`parseFloat` gives NaN, e.g. for the empty string, modelled as `none`), the
customer is still created — appended with openingBalance and balance both
coerced to 0 — and no transaction is created, so the balance invariant holds
at creation even for unparseable input. -/
theorem C10_unparseable_opening_coerced_to_zero (s : LedgerState)
    (f : CustomerForm) (h : f.openingBalance = none) :
    (handleCustomerSubmit s f).1.customers = s.customers ++ [newCustomerOf f] ∧
    (newCustomerOf f).openingBalance = 0 ∧
    (newCustomerOf f).balance = 0 ∧
    (handleCustomerSubmit s f).1.transactions = s.transactions := by
  refine ⟨rfl, ?_, ?_, rfl⟩ <;> simp [newCustomerOf, parseFloatOrZero, h]

def fC10 : CustomerForm := sampleCustomerForm "10" none

theorem C10_witness :
    fC10.openingBalance = none ∧
    ((handleCustomerSubmit initState fC10).1.customers
       = initState.customers ++ [newCustomerOf fC10] ∧
     (newCustomerOf fC10).openingBalance = 0 ∧
     (newCustomerOf fC10).balance = 0 ∧
     (handleCustomerSubmit initState fC10).1.transactions
       = initState.transactions) :=
  ⟨by decide, C10_unparseable_opening_coerced_to_zero initState fC10 (by decide)⟩

end CustomerLedger
